import Mathlib

/-!
A shallow embedding of the ID-assignment core of the `asana-tools` repository
(`aa/core/id_manager.py`, `aa/core/task_processor.py`, `aa/commands/scan.py`),
with theorems checking the natural-language specification against it.

Strings are modelled as `List Char` (called `Str` below); Python `dict`s are
modelled as insertion-ordered association lists, which is exactly the ordering
behaviour of CPython dicts.  Stateful methods of `IDManager` become functions
that take and return the `CacheData` value they mutate.
-/

/-- Python strings, modelled as lists of characters. -/
abbrev Str := List Char

/-- Character class `[A-Z]` of the regex `ID_PATTERN` in `id_manager.py`. -/
def isUpperAZ (c : Char) : Bool := 'A' ≤ c && c ≤ 'Z'

/-- Character class `\d` (ASCII digits, as matched on the IDs in this code base). -/
def isDigit09 (c : Char) : Bool := '0' ≤ c && c ≤ '9'

/-- Character class `\s` of Python regexes, restricted to ASCII
(space, tab, newline, carriage return, vertical tab, form feed). -/
def isSpaceWS (c : Char) : Bool :=
  c == ' ' || c == '\t' || c == '\n' || c == '\r' || c.toNat == 11 || c.toNat == 12

/-- Greedy matcher for the fragment `\d+(?:-\d+)*` of `ID_PATTERN`, to be applied
to input whose first character is a digit.  Returns the matched characters and
the rest of the input.  For this fragment, backtracking cannot rescue a failed
continuation (dropping a trailing `-\d+` group leaves the scanner on `-`, and
shortening a digit run leaves it on a digit, neither of which can satisfy the
follow-up `(?:\s|$)`), so the greedy maximal munch below is exactly the Python
`re` semantics of the pattern. -/
def numChunk : Str → Str × Str
  | [] => ([], [])
  | c :: rest =>
    if isDigit09 c then
      let p := numChunk rest
      (c :: p.1, p.2)
    else if c = '-' then
      match rest with
      | c2 :: rest2 =>
        if isDigit09 c2 then
          let p := numChunk rest2
          ('-' :: c2 :: p.1, p.2)
        else ([], c :: rest)
      | [] => ([], ['-'])
    else ([], c :: rest)

/-- Models `re.match(ID_PATTERN, s)` for `ID_PATTERN = r'^([A-Z]{2,5})-(\d+(?:-\d+)*)(?:\s|$)'`
(`id_manager.py`).  Returns `(group 1, group 2)` on success.  The `[A-Z]{2,5}`
part is deterministic: since `-` is not an uppercase letter, the only candidate
for group 1 is the maximal uppercase run, and the match fails unless that run
has length 2..5 and is followed by `-`. -/
def reMatchID (s : Str) : Option (Str × Str) :=
  let code := s.takeWhile isUpperAZ
  let rest := s.dropWhile isUpperAZ
  if 2 ≤ code.length ∧ code.length ≤ 5 then
    match rest with
    | '-' :: r2 =>
      match r2 with
      | c :: _ =>
        if isDigit09 c then
          let p := numChunk r2
          match p.2 with
          | [] => some (code, p.1)
          | c2 :: _ => if isSpaceWS c2 then some (code, p.1) else none
        else none
      | [] => none
    | _ => none
  else none

/-- Models `IDManager.extract_id`: match `ID_PATTERN` against the task name and return
`f"{group1}-{group2}"` when group 1 equals the project code. -/
def extract_id (task_name : Str) (project_code : Str) : Option Str :=
  match reMatchID task_name with
  | some g => if g.1 = project_code then some (g.1 ++ '-' :: g.2) else none
  | none => none

/-- Models `IDManager.has_id`: the task name contains an ID. -/
def has_id (task_name : Str) (project_code : Str) : Bool :=
  (extract_id task_name project_code).isSome

/-- Decimal digit character for `d < 10` (`chr(48 + d)`). -/
def digitChar (d : Nat) : Char := Char.ofNat (48 + d)

/-- Fuel-driven core of `str(n)` for a natural number: most significant digit
first.  The fuel is an upper bound used only to make the recursion structural;
`natRepr` supplies enough of it. -/
def natReprAux : Nat → Nat → Str
  | 0, _ => []
  | fuel + 1, n =>
    if n < 10 then [digitChar n]
    else natReprAux fuel (n / 10) ++ [digitChar (n % 10)]

/-- Python `str(n)` / f-string interpolation of a non-negative integer. -/
def natRepr (n : Nat) : Str := natReprAux (n + 1) n

/-- Python `int(s)` on a non-empty string of decimal digits (the only shape this
code base ever passes to `int`). -/
def pyInt (s : Str) : Nat := s.foldl (fun a c => a * 10 + (c.toNat - 48)) 0

/-- Python `s.replace(pat, '', 1)`: remove the first occurrence of `pat` from
`s` (the identity when `pat` does not occur). -/
def replaceFirst (pat : Str) : Str → Str
  | [] => []
  | c :: rest =>
    if pat.isPrefixOf (c :: rest) then (c :: rest).drop pat.length
    else c :: replaceFirst pat rest

/-- Python `s.rsplit('-', 1)` for a string that contains a `-`: the part before
the last dash and the part after it.  (When `s` has no dash the code never calls
this; we return `([], s)` there.) -/
def rsplitDash (s : Str) : Str × Str :=
  let r := s.reverse
  let last := (r.takeWhile (fun c => ¬ (c = '-'))).reverse
  match r.dropWhile (fun c => ¬ (c = '-')) with
  | '-' :: front => (front.reverse, last)
  | _ => ([], last)

/-- Lookup in an insertion-ordered association list (Python `dict` read). -/
def lookupKey {β : Type} : List (Str × β) → Str → Option β
  | [], _ => none
  | (a, b) :: rest, k => if a = k then some b else lookupKey rest k

/-- Write to an insertion-ordered association list (Python `dict[k] = v`):
replace in place when the key exists, append otherwise. -/
def setKey {β : Type} : List (Str × β) → Str → β → List (Str × β)
  | [], k, v => [(k, v)]
  | (a, b) :: rest, k, v => if a = k then (k, v) :: rest else (a, b) :: setKey rest k v

/-- The `lookupKey` read with default `0` (Python `dict.get(k, 0)`). -/
def lookupKeyD (m : List (Str × Nat)) (k : Str) : Nat := (lookupKey m k).getD 0

/-- Equality of modelled Python outcomes (`Except` values) is decidable. -/
instance exceptDecEq {ε α : Type} [DecidableEq ε] [DecidableEq α] :
    DecidableEq (Except ε α) := fun x y =>
  match x, y with
  | .error a, .error b =>
    if h : a = b then isTrue (by rw [h]) else isFalse (by intro hh; cases hh; exact h rfl)
  | .error _, .ok _ => isFalse (by intro hh; cases hh)
  | .ok _, .error _ => isFalse (by intro hh; cases hh)
  | .ok a, .ok b =>
    if h : a = b then isTrue (by rw [h]) else isFalse (by intro hh; cases hh; exact h rfl)

/-- Models `ProjectCache` of `aa/models/cache.py`: last assigned root number and the
per-parent-path last subtask numbers. -/
structure ProjectCache where
  last_root : Nat := 0
  subtasks : List (Str × Nat) := []
deriving DecidableEq, Repr

/-- Models `CacheData` of `aa/models/cache.py`: per-project-code cache entries. -/
structure CacheData where
  projects : List (Str × ProjectCache) := []
deriving DecidableEq, Repr

/-- Models `self.cache_data.projects.get(code)`. -/
def getProject (cd : CacheData) (code : Str) : Option ProjectCache :=
  lookupKey cd.projects code

/-- Read a project entry, defaulting to a fresh `ProjectCache()` (used where the
Python code has just guaranteed the entry exists). -/
def getProjectD (cd : CacheData) (code : Str) : ProjectCache :=
  (lookupKey cd.projects code).getD {}

/-- Models `self.cache_data.projects[code] = pc`. -/
def setProject (cd : CacheData) (code : Str) (pc : ProjectCache) : CacheData :=
  ⟨setKey cd.projects code pc⟩

/-- Models `if project_code not in self.cache_data.projects: ... = ProjectCache()`. -/
def ensureProject (cd : CacheData) (code : Str) : CacheData :=
  match lookupKey cd.projects code with
  | some _ => cd
  | none => setProject cd code {}

/-- Models `IDManager.generate_next_root_id`: create the entry if absent and return
`f"{project_code}-{last_root + 1}"` together with the (possibly extended) cache. -/
def generate_next_root_id (cd : CacheData) (project_code : Str) : Str × CacheData :=
  let cd1 := ensureProject cd project_code
  let pc := getProjectD cd1 project_code
  (project_code ++ '-' :: natRepr (pc.last_root + 1), cd1)

/-- Models `IDManager.generate_next_subtask_id`: strip the code prefix from the parent
ID, create the entry if absent, and return
`f"{parent_id}-{subtasks.get(parent_numeric, 0) + 1}"`. -/
def generate_next_subtask_id (cd : CacheData) (parent_id : Str) (project_code : Str) :
    Str × CacheData :=
  let parent_numeric := replaceFirst (project_code ++ ['-']) parent_id
  let cd1 := ensureProject cd project_code
  let pc := getProjectD cd1 project_code
  let last_subtask := lookupKeyD pc.subtasks parent_numeric
  (parent_id ++ '-' :: natRepr (last_subtask + 1), cd1)

/-- Models `re.compile(rf'^{re.escape(project_code)}-(\d+)$').match(task_id)`, returning
the integer value of group 1.  Python `$` also matches just before one final
newline, hence the `dropLast` case. -/
def rootMatch (code : Str) (tid : Str) : Option Nat :=
  if (code ++ ['-']).isPrefixOf tid then
    let ds := tid.drop (code.length + 1)
    let ds := if ds.getLast? = some '\n' then ds.dropLast else ds
    if ds ≠ [] ∧ ds.all isDigit09 then some (pyInt ds) else none
  else none

/-- Models `IDManager.find_max_id`: maximum root number among the given IDs (0 when
none match `^CODE-(\d+)$`). -/
def find_max_id (existing_ids : List Str) (project_code : Str) : Nat :=
  existing_ids.foldl
    (fun m tid =>
      match rootMatch project_code tid with
      | some n => if n > m then n else m
      | none => m)
    0

/-- One conflict record of `IDManager.detect_conflicts`.  `dup tid` stands for
the message `f"Duplicate ID found: {tid}"`; `drift tid last_root` stands for
`f"Root task ID {tid} is greater than cached last_root ({last_root})"`.  Both
renderings are injective in the carried data, so equality of messages is
equality of these records. -/
inductive Conflict where
  | dup (task_id : Str)
  | drift (task_id : Str) (last_root : Nat)
deriving DecidableEq, Repr

/-- The duplicate-detection loop of `detect_conflicts`: a conflict is appended
for every occurrence of an ID after its first (`seen` is the set built so far). -/
def dupScan (seen : List Str) : List Str → List Conflict
  | [] => []
  | tid :: rest =>
    (if tid ∈ seen then [Conflict.dup tid] else []) ++ dupScan (tid :: seen) rest

/-- The drift-detection loop of `detect_conflicts`: one conflict per observed
root ID whose number exceeds the cached `last_root`. -/
def driftScan (lastRoot : Nat) (code : Str) (ids : List Str) : List Conflict :=
  ids.filterMap fun tid =>
    match rootMatch code tid with
    | some n => if n > lastRoot then some (Conflict.drift tid lastRoot) else none
    | none => none

/-- Models `IDManager.detect_conflicts`.  When no cache entry exists for the code the
Python function returns immediately (`if not project_cache: return conflicts`)
with the empty list — a `ProjectCache` instance is always truthy, so the early
return fires exactly when the key is absent. -/
def detect_conflicts (cd : CacheData) (existing_ids : List Str) (project_code : Str) :
    List Conflict :=
  match lookupKey cd.projects project_code with
  | none => []
  | some pc => dupScan [] existing_ids ++ driftScan pc.last_root project_code existing_ids

/-- Models `IDManager.update_cache_for_id`: strip the code prefix; a dash-free numeric
part updates `last_root`, otherwise the last dash splits off the subtask number
and the parent path's `subtasks` entry is set to it.  Both writes are
unconditional assignments. -/
def update_cache_for_id (cd : CacheData) (task_id : Str) (project_code : Str) : CacheData :=
  let cd1 := ensureProject cd project_code
  let pc := getProjectD cd1 project_code
  let numeric := replaceFirst (project_code ++ ['-']) task_id
  if '-' ∈ numeric then
    let parts := rsplitDash numeric
    setProject cd1 project_code
      { pc with subtasks := setKey pc.subtasks parts.1 (pyInt parts.2) }
  else
    setProject cd1 project_code { pc with last_root := pyInt numeric }

/-- The subtask parse performed by the conflict branch of `scan_project` on one
observed ID: strip the code prefix; when a dash remains, split at the last dash
into the parent path and the subtask number. -/
def subtaskTarget (code : Str) (tid : Str) : Option (Str × Nat) :=
  let numeric := replaceFirst (code ++ ['-']) tid
  if '-' ∈ numeric then
    let parts := rsplitDash numeric
    some (parts.1, pyInt parts.2)
  else none

/-- One iteration of the subtask-counter loop in the conflict branch of
`scan_project` (`scan.py` lines 85-97): for an observed subtask ID, advance the
parent path's `subtasks` entry to the observed number when it is greater. -/
def subtaskAdvanceOne (code : Str) (cd : CacheData) (tid : Str) : CacheData :=
  match subtaskTarget code tid with
  | some pr =>
    let pc := getProjectD cd code
    if pr.2 > lookupKeyD pc.subtasks pr.1 then
      setProject cd code { pc with subtasks := setKey pc.subtasks pr.1 pr.2 }
    else cd
  | none => cd

/-- The subtask-counter loop of `scan_project`'s conflict branch, over all
observed IDs in order. -/
def subtaskAdvance (code : Str) (cd : CacheData) (ids : List Str) : CacheData :=
  ids.foldl (subtaskAdvanceOne code) cd

/-- The conflict branch of `scan_project` under `--ignore-conflicts` (`scan.py`
lines 73-97): assign `last_root` the observed maximum root (unconditionally),
then advance the subtask counters. -/
def scanConflictBranch (cd : CacheData) (ids : List Str) (code : Str) : CacheData :=
  let m := find_max_id ids code
  let cda := ensureProject cd code
  let pc := getProjectD cda code
  subtaskAdvance code (setProject cda code { pc with last_root := m }) ids

/-- The final cache-update block of `scan_project` (`scan.py` lines 106-120),
reached when there were no conflicts or they were ignored: raise `last_root` to
the observed maximum root when that is positive and strictly greater. -/
def scanTailUpdate (cd : CacheData) (ids : List Str) (code : Str) : CacheData :=
  let m := find_max_id ids code
  let cd2 := ensureProject cd code
  if m > 0 then
    let pc := getProjectD cd2 code
    if m > pc.last_root then setProject cd2 code { pc with last_root := m } else cd2
  else cd2

/-- The cache mutation performed by `scan_project` (`scan.py` lines 72-120) on
the non-error path, given whether `detect_conflicts` returned a non-empty list. -/
def scan_apply (cd : CacheData) (ids : List Str) (code : Str) (hasConflicts : Bool) :
    CacheData :=
  scanTailUpdate (if hasConflicts then scanConflictBranch cd ids code else cd) ids code

/-- The reconciliation core of `scan_project`: detect conflicts against the
cache; raise `ScanError` (the `.error` case, carrying the conflicts) when
conflicts exist and `ignore_conflicts` is false; otherwise mutate the cache via
`scan_apply` and report the conflicts found. -/
def scan_reconcile (cd : CacheData) (ids : List Str) (code : Str)
    (ignore_conflicts : Bool) : Except (List Conflict) (CacheData × List Conflict) :=
  let conflicts := detect_conflicts cd ids code
  if conflicts ≠ [] ∧ ignore_conflicts = false then .error conflicts
  else .ok (scan_apply cd ids code (!conflicts.isEmpty), conflicts)

mutual
/-- A node of the real remote task tree: `gid`, `name`, and the actual subtasks
(in ascending `created_at` order, as both client fetches sort their result).
The `num_subtasks` count is not a property of the tree but of the *dict* a
particular fetch returns: `get_project_tasks` requests it in its `opt_fields`
(`asana_client.py` line 138), while `get_task_subtasks` does not
(`asana_client.py` line 168), so dicts for fetched subtasks lack the key and
`task.get('num_subtasks', 0)` reads 0 on them. -/
inductive RTask : Type where
  | mk (gid : Str) (name : Str) (children : RForest)

/-- A list of remote sibling tasks. -/
inductive RForest : Type where
  | nil : RForest
  | cons (t : RTask) (ts : RForest) : RForest
end

/-- Number of trees in a forest. -/
def forestLength : RForest → Nat
  | .nil => 0
  | .cons _ ts => forestLength ts + 1

/-- The accurate subtask count of a node, which the Asana API reports as
`num_subtasks` when (and only when) that field is requested. -/
def childCount : RTask → Nat
  | .mk _ _ ch => forestLength ch

/-- Models `TaskUpdate` of `aa/models/task.py`. -/
structure TaskUpdate where
  task_id : Str
  old_name : Str
  new_name : Str
  assigned_id : Str
deriving DecidableEq, Repr

mutual
/-- Models `TaskProcessor.process_task_hierarchy` (collection semantics: the remote
rename of the non-collect path is modelled in the apply phase of
`process_project`; cache mutation is identical in dry-run and collect modes).
`reported` is the value of `task.get('num_subtasks', 0)` on the dict this call
received: the accurate child count for dicts from `get_project_tasks` (which
requests the field), but 0 for dicts from `get_task_subtasks` (whose
`opt_fields` omits it) — `process_subtask_list` below therefore passes 0.
A task whose name already carries an ID is skipped but its children are still
recursed with the extracted ID as parent; otherwise the next root or subtask ID
is generated, committed to the cache, and an update record is emitted; children
are then recursed with the new ID as parent.  Children are only fetched when
the reported count is positive. -/
def process_task_hierarchy (code : Str) : RTask → Nat → Option Str → CacheData →
    List TaskUpdate × CacheData
  | .mk gid name ch, reported, parent_id, cd =>
    match extract_id name code with
    | some existing_id =>
      if reported > 0 then process_subtask_list code ch (some existing_id) cd
      else ([], cd)
    | none =>
      let p :=
        match parent_id with
        | some pid => generate_next_subtask_id cd pid code
        | none => generate_next_root_id cd code
      let new_name := p.1 ++ ' ' :: name
      let upd : TaskUpdate := ⟨gid, name, new_name, p.1⟩
      let cd2 := update_cache_for_id p.2 p.1 code
      if reported > 0 then
        let q := process_subtask_list code ch (some p.1) cd2
        (upd :: q.1, q.2)
      else ([upd], cd2)

/-- The for-loop over fetched subtasks in `process_task_hierarchy`: each subtask
dict comes from `get_task_subtasks`, whose `opt_fields` omits `num_subtasks`,
so the recursive call reads `task.get('num_subtasks', 0) = 0`. -/
def process_subtask_list (code : Str) : RForest → Option Str → CacheData →
    List TaskUpdate × CacheData
  | .nil, _, cd => ([], cd)
  | .cons t ts, parent_id, cd =>
    let p := process_task_hierarchy code t 0 parent_id cd
    let q := process_subtask_list code ts parent_id p.2
    (p.1 ++ q.1, q.2)
end

/-- One element of `get_project_tasks`: the flat project task list marks which
entries have a parent (those are skipped by `process_project` and reached
through their root's subtree instead). -/
structure ProjTask where
  hasParent : Bool
  task : RTask

/-- Models `ProcessingResult` of `task_processor.py`. -/
structure ProcessingResult where
  project_code : Str
  updates : List TaskUpdate
  skipped : Nat
  errors : List Str
deriving DecidableEq, Repr

/-- The collection pass of `TaskProcessor.process_project`: walk every parentless
task of the project (in list order) and accumulate the updates, threading the
cache through.  Project-level dicts come from `get_project_tasks`, which does
request `num_subtasks`, so the reported count here is the accurate one. -/
def collectUpdates (code : Str) (tasks : List ProjTask) (cd : CacheData) :
    List TaskUpdate × CacheData :=
  tasks.foldl
    (fun acc pt =>
      if pt.hasParent then acc
      else
        let p := process_task_hierarchy code pt.task (childCount pt.task) none acc.2
        (acc.1 ++ p.1, p.2))
    ([], cd)

/-- Models `TaskProcessor.process_project`.  `renameFails` is the oracle of
`update_task_name` outcomes during the apply phase.  `apply_update` re-raises
any rename exception and the surrounding `asyncio.gather` (without
`return_exceptions`) propagates it out of `process_project`, so a failing
rename yields the `.error` case (carrying that task's gid) and no
`ProcessingResult` at all; `ProcessingResult.add_error` is never called.  The
propagated exception is modelled as the first failing update in list order.
The cache is mutated only by the collection pass. -/
def process_project (code : Str) (tasks : List ProjTask) (renameFails : Str → Bool)
    (dry_run : Bool) (cd : CacheData) : Except Str ProcessingResult × CacheData :=
  let p := collectUpdates code tasks cd
  if dry_run = false ∧ p.1 ≠ [] then
    match p.1.find? (fun u => renameFails u.task_id) with
    | some u => (.error u.task_id, p.2)
    | none => (.ok ⟨code, p.1, 0, []⟩, p.2)
  else (.ok ⟨code, p.1, 0, []⟩, p.2)

/-- N consecutive root allocations starting from the given cache, each committed
immediately (`generate_next_root_id` followed by `update_cache_for_id`, the
allocate-then-commit sequence the tree processor performs for root tasks),
returning the allocated IDs in order and the final cache. -/
def allocN (code : Str) (cd : CacheData) : Nat → List Str × CacheData
  | 0 => ([], cd)
  | n + 1 =>
    let p := allocN code cd n
    let g := generate_next_root_id p.2 code
    (p.1 ++ [g.1], update_cache_for_id g.2 g.1 code)

/-- Dash-plus-chunk concatenation: `-x₁-x₂-…-xₙ`. -/
def dashConcat : List Str → Str
  | [] => []
  | x :: xs => '-' :: (x ++ dashConcat xs)

/-- Chunks joined by dashes: `x₀-x₁-…-xₙ`. -/
def joinDash : List Str → Str
  | [] => []
  | x :: xs => x ++ dashConcat xs

/-- The identifier grammar's `format(code, sequence)`: the code, a dash, and the
decimal renderings of the sequence joined by dashes.  This is the spec-side
formatting function that claim C8 compares `extract_id` against. -/
def formatId (code : Str) (s : List Nat) : Str :=
  code ++ '-' :: joinDash (s.map natRepr)

/-- A valid project code: 2 to 5 uppercase letters. -/
def validCode (code : Str) : Prop :=
  2 ≤ code.length ∧ code.length ≤ 5 ∧ ∀ c ∈ code, isUpperAZ c = true

/-! ### Basic facts about digits, decimal rendering and parsing -/

theorem digitChar_toNat : ∀ d < 10, (digitChar d).toNat = 48 + d := by decide

theorem isDigit09_digitChar : ∀ d < 10, isDigit09 (digitChar d) = true := by decide

theorem natReprAux_digits : ∀ (f n : Nat), ∀ c ∈ natReprAux f n, isDigit09 c = true := by
  intro f
  induction f with
  | zero => intro n c hc; simp [natReprAux] at hc
  | succ f ih =>
    intro n c hc
    by_cases h : n < 10
    · simp [natReprAux, h] at hc
      subst hc
      exact isDigit09_digitChar n h
    · simp [natReprAux, h] at hc
      rcases hc with hc | hc
      · exact ih _ c hc
      · subst hc
        exact isDigit09_digitChar _ (Nat.mod_lt _ (by omega))

theorem natRepr_digits (n : Nat) : ∀ c ∈ natRepr n, isDigit09 c = true :=
  natReprAux_digits (n + 1) n

theorem natRepr_ne_nil (n : Nat) : natRepr n ≠ [] := by
  by_cases h : n < 10 <;> simp [natRepr, natReprAux, h]

theorem dash_not_mem_natRepr (n : Nat) : '-' ∉ natRepr n := fun h =>
  absurd (natRepr_digits n '-' h) (by decide)

theorem pyInt_append_char (a : Str) (c : Char) :
    pyInt (a ++ [c]) = pyInt a * 10 + (c.toNat - 48) := by
  simp [pyInt, List.foldl_append]

theorem pyInt_natReprAux : ∀ (f n : Nat), n < f → pyInt (natReprAux f n) = n := by
  intro f
  induction f with
  | zero => intro n hn; omega
  | succ f ih =>
    intro n hn
    by_cases h : n < 10
    · have hd := digitChar_toNat n h
      simp [natReprAux, h, pyInt]
      omega
    · have hdiv : n / 10 < n := Nat.div_lt_self (by omega) (by omega)
      have hlt : n / 10 < f := by omega
      have hmod := digitChar_toNat (n % 10) (Nat.mod_lt _ (by omega))
      have hdm := Nat.div_add_mod n 10
      simp [natReprAux, h, pyInt_append_char, ih _ hlt]
      omega

theorem pyInt_natRepr (n : Nat) : pyInt (natRepr n) = n :=
  pyInt_natReprAux (n + 1) n (Nat.lt_succ_self n)

/-! ### List scanning facts -/

theorem takeWhile_append_all {p : Char → Bool} (l r : Str) (h : ∀ c ∈ l, p c = true) :
    (l ++ r).takeWhile p = l ++ r.takeWhile p := by
  induction l with
  | nil => simp
  | cons c t ih =>
    have hc : p c = true := h c (by simp)
    simp only [List.cons_append, List.takeWhile_cons, hc, if_true]
    rw [ih (fun x hx => h x (by simp [hx]))]

theorem dropWhile_append_all {p : Char → Bool} (l r : Str) (h : ∀ c ∈ l, p c = true) :
    (l ++ r).dropWhile p = r.dropWhile p := by
  induction l with
  | nil => simp
  | cons c t ih =>
    have hc : p c = true := h c (by simp)
    simp only [List.cons_append, List.dropWhile_cons, hc, if_true]
    exact ih (fun x hx => h x (by simp [hx]))

theorem takeWhile_stop {p : Char → Bool} (x : Char) (r : Str) (hx : p x = false) :
    (x :: r).takeWhile p = [] ∧ (x :: r).dropWhile p = x :: r := by
  simp [List.takeWhile_cons, List.dropWhile_cons, hx]

theorem isPrefixOf_append_self (l r : Str) : l.isPrefixOf (l ++ r) = true := by
  induction l with
  | nil => simp [List.isPrefixOf]
  | cons c t ih => simp [List.isPrefixOf, ih]

theorem isPrefixOf_append_of (pat a b : Str) (h : pat.isPrefixOf a = true) :
    pat.isPrefixOf (a ++ b) = true := by
  rw [ List.isPrefixOf_iff_prefix] at h ⊢
  exact h.trans (List.prefix_append a b)

theorem length_le_of_isPrefixOf (pat a : Str) (h : pat.isPrefixOf a = true) :
    pat.length ≤ a.length := by
  rw [ List.isPrefixOf_iff_prefix] at h
  exact h.length_le

theorem replaceFirst_drops_pat (pat s : Str) (hne : pat ≠ [])
    (h : pat.isPrefixOf s = true) : replaceFirst pat s = s.drop pat.length := by
  cases s with
  | nil =>
    cases pat with
    | nil => exact absurd rfl hne
    | cons c t => simp [List.isPrefixOf] at h
  | cons c t => simp [replaceFirst, h]

theorem rsplitDash_append (a b : Str) (hb : '-' ∉ b) :
    rsplitDash (a ++ '-' :: b) = (a, b) := by
  have hrev : (a ++ '-' :: b).reverse = b.reverse ++ '-' :: a.reverse := by
    simp
  have hall : ∀ c ∈ b.reverse, (¬ (c = '-') : Bool) = true := by
    intro c hc
    have : c ∈ b := List.mem_reverse.mp hc
    simp only [decide_eq_true_eq]
    intro hcc
    exact hb (hcc ▸ this)
  have hstop : (¬ (('-' : Char) = '-') : Bool) = false := by simp
  unfold rsplitDash
  simp only [hrev]
  rw [takeWhile_append_all _ _ hall, dropWhile_append_all _ _ hall,
    (takeWhile_stop _ _ hstop).1, (takeWhile_stop _ _ hstop).2]
  simp

/-! ### Association list (Python dict) facts -/

theorem lookupKey_setKey_self {β : Type} (m : List (Str × β)) (k : Str) (v : β) :
    lookupKey (setKey m k v) k = some v := by
  induction m with
  | nil => simp [setKey, lookupKey]
  | cons p t ih =>
    obtain ⟨a, b⟩ := p
    by_cases h : a = k
    · simp [setKey, h, lookupKey]
    · simp [setKey, h, lookupKey, ih]

theorem lookupKey_setKey_ne {β : Type} (m : List (Str × β)) (k k' : Str) (v : β)
    (h : k' ≠ k) : lookupKey (setKey m k v) k' = lookupKey m k' := by
  induction m with
  | nil => simp [setKey, lookupKey, Ne.symm h]
  | cons p t ih =>
    obtain ⟨a, b⟩ := p
    by_cases ha : a = k
    · subst ha
      simp [setKey, lookupKey, Ne.symm h]
    · by_cases ha' : a = k'
      · subst ha'
        simp [setKey, h, lookupKey]
      · simp [setKey, ha, lookupKey, ha', ih]

theorem setKey_self_of_lookup {β : Type} (m : List (Str × β)) (k : Str) (v : β)
    (h : lookupKey m k = some v) : setKey m k v = m := by
  induction m with
  | nil => simp [lookupKey] at h
  | cons p t ih =>
    obtain ⟨a, b⟩ := p
    by_cases ha : a = k
    · subst ha
      simp [lookupKey] at h
      simp [setKey, h]
    · simp [lookupKey, ha] at h
      simp [setKey, ha, ih h]

theorem getProjectD_setProject_self (cd : CacheData) (code : Str) (pc : ProjectCache) :
    getProjectD (setProject cd code pc) code = pc := by
  simp [getProjectD, setProject, lookupKey_setKey_self]

theorem lookupKey_ensureProject_self (cd : CacheData) (code : Str) :
    lookupKey (ensureProject cd code).projects code = some (getProjectD cd code) := by
  unfold ensureProject getProjectD
  cases h : lookupKey cd.projects code with
  | some pc => simp [h]
  | none => simp [h, setProject, lookupKey_setKey_self]

theorem getProjectD_ensureProject (cd : CacheData) (code : Str) :
    getProjectD (ensureProject cd code) code = getProjectD cd code := by
  simp [getProjectD, lookupKey_ensureProject_self, getProjectD]

theorem ensureProject_of_isSome (cd : CacheData) (code : Str)
    (h : (lookupKey cd.projects code).isSome = true) : ensureProject cd code = cd := by
  cases hh : lookupKey cd.projects code with
  | some pc => simp [ensureProject, hh]
  | none => rw [hh] at h; simp at h

theorem lookup_eq_getProjectD (cd : CacheData) (code : Str)
    (h : (lookupKey cd.projects code).isSome = true) :
    lookupKey cd.projects code = some (getProjectD cd code) := by
  cases hh : lookupKey cd.projects code with
  | some pc => simp [getProjectD, hh]
  | none => rw [hh] at h; simp at h

/-! ### Root-ID matching -/

theorem rootMatch_append (code ds : Str) (hne : ds ≠ [])
    (hd : ∀ c ∈ ds, isDigit09 c = true) :
    rootMatch code (code ++ '-' :: ds) = some (pyInt ds) := by
  have h1 : code ++ '-' :: ds = (code ++ ['-']) ++ ds := by simp
  have hp : (code ++ ['-']).isPrefixOf ((code ++ ['-']) ++ ds) = true :=
    isPrefixOf_append_self _ _
  have hlen : (code ++ ['-']).length = code.length + 1 := by simp
  have hdrop : ((code ++ ['-']) ++ ds).drop (code.length + 1) = ds := by
    rw [← hlen]; exact List.drop_left _ _
  have hlast : ¬ ds.getLast? = some '\n' := by
    cases hgl : ds.getLast? with
    | none => simp
    | some c =>
      have hmem : c ∈ ds.getLast? := by rw [hgl]; rfl
      obtain ⟨hne2, hceq⟩ := List.mem_getLast?_eq_getLast hmem
      have hc : c ∈ ds := hceq ▸ List.getLast_mem hne2
      have hdc := hd c hc
      intro hcontra
      injection hcontra with hcc
      subst hcc
      simp [isDigit09] at hdc
  rw [h1]
  unfold rootMatch
  simp only [hp, if_true, hdrop]
  rw [if_neg hlast, if_pos ⟨hne, List.all_eq_true.mpr hd⟩]

/-- Claim C6: with a cached `last_root` of 5, `detect_conflicts` on the observed
IDs `[CODE-3, CODE-10]` returns exactly one conflict, the drift conflict for
`CODE-10`; on `[CODE-3, CODE-3]` it returns exactly one conflict, the duplicate
conflict for `CODE-3` (for every project code). -/
theorem detect_conflicts_examples (code : Str) :
    detect_conflicts ⟨[(code, ⟨5, []⟩)]⟩ [code ++ '-' :: ['3'], code ++ '-' :: ['1', '0']] code
        = [Conflict.drift (code ++ '-' :: ['1', '0']) 5]
    ∧ detect_conflicts ⟨[(code, ⟨5, []⟩)]⟩ [code ++ '-' :: ['3'], code ++ '-' :: ['3']] code
        = [Conflict.dup (code ++ '-' :: ['3'])] := by
  have hne : ¬ code ++ '-' :: ['1', '0'] = code ++ '-' :: ['3'] := by
    intro h
    have := List.append_cancel_left h
    simp at this
  have h3 := rootMatch_append code ['3'] (by simp) (by decide)
  have h10 := rootMatch_append code ['1', '0'] (by simp) (by decide)
  have e3 : pyInt ['3'] = 3 := by decide
  have e10 : pyInt ['1', '0'] = 10 := by decide
  rw [e3] at h3
  rw [e10] at h10
  have hlk : lookupKey [(code, (⟨5, []⟩ : ProjectCache))] code = some ⟨5, []⟩ := by
    simp [lookupKey]
  constructor
  · simp [detect_conflicts, hlk, dupScan, hne, driftScan, List.filterMap, h3, h10]
  · simp [detect_conflicts, hlk, dupScan, driftScan, List.filterMap, h3]

/-- Claim C7: processing the tree with root "Write spec" (no existing ID) and
children "Draft" then "Review" under code `AT` and an empty cache yields exactly
the assignments `AT-1` ("AT-1 Write spec"), `AT-1-1` ("AT-1-1 Draft"),
`AT-1-2` ("AT-1-2 Review"), and the final cache has `last_root = 1` and
`subtasks = {"1": 2}`. -/
theorem process_tree_example :
    process_task_hierarchy "AT".data
        (.mk "g1".data "Write spec".data
          (.cons (.mk "g2".data "Draft".data .nil)
            (.cons (.mk "g3".data "Review".data .nil) .nil)))
        2 none ⟨[]⟩
      = ([⟨"g1".data, "Write spec".data, "AT-1 Write spec".data, "AT-1".data⟩,
          ⟨"g2".data, "Draft".data, "AT-1-1 Draft".data, "AT-1-1".data⟩,
          ⟨"g3".data, "Review".data, "AT-1-2 Review".data, "AT-1-2".data⟩],
         ⟨[("AT".data, ⟨1, [("1".data, 2)]⟩)]⟩) := by
  decide

/-- Claim C5 counterexample: for a project code with no cache entry,
`detect_conflicts` on `[AB-3, AB-3]` (a duplicated ID) returns the empty list —
no duplicate conflict is reported, contrary to the claim. -/
theorem detect_conflicts_no_entry_counterexample :
    detect_conflicts ⟨[]⟩ ["AB-3".data, "AB-3".data] "AB".data = []
    ∧ Conflict.dup "AB-3".data ∉ detect_conflicts ⟨[]⟩ ["AB-3".data, "AB-3".data] "AB".data := by
  decide

/-- Claim C5 (amended): when no cache entry exists for the project code,
`detect_conflicts` returns no conflicts at all — the duplicate check is skipped
along with the drift check (`return conflicts` fires before either loop). -/
theorem detect_conflicts_no_entry (cd : CacheData) (ids : List Str) (code : Str)
    (h : lookupKey cd.projects code = none) : detect_conflicts cd ids code = [] := by
  simp [detect_conflicts, h]

/-- Witness for `detect_conflicts_no_entry` at concrete input. -/
theorem detect_conflicts_no_entry_witness :
    detect_conflicts ⟨[]⟩ ["AB-3".data, "AB-3".data] "AB".data = [] :=
  detect_conflicts_no_entry ⟨[]⟩ ["AB-3".data, "AB-3".data] "AB".data (by decide)

/-- Claim C4 counterexample: committing the well-formed ID `AB-3` through
`update_cache_for_id` over a cache whose `last_root` is 5 lowers `last_root`
to 3 — the entry does not stay greater than or equal to its previous value. -/
theorem update_cache_lowers_counterexample :
    update_cache_for_id ⟨[("AB".data, ⟨5, []⟩)]⟩ "AB-3".data "AB".data
      = ⟨[("AB".data, ⟨3, []⟩)]⟩ ∧ (3 : Nat) < 5 := by
  decide

/-- Claim C3 counterexample: reconciling cache `last_root = 5` against observed
`[AB-3, AB-3]` (a duplicate conflict whose maximum root 3 does not exceed 5)
with `ignore_conflicts = true` sets `last_root` to 3, lowering it. -/
theorem scan_reconcile_lowers_counterexample :
    scan_reconcile ⟨[("AB".data, ⟨5, []⟩)]⟩ ["AB-3".data, "AB-3".data] "AB".data true
      = .ok (⟨[("AB".data, ⟨3, []⟩)]⟩, [Conflict.dup "AB-3".data]) ∧ (3 : Nat) < 5 := by
  decide

/-- Claim C10 counterexample: starting from an empty cache, the first
reconciliation of `[AB-3, AB-3, AB-3-2]` with `ignore_conflicts = true` sees no
conflicts (no cache entry yet) and records only `last_root = 3`; the second run
sees the duplicate conflict, takes the conflict branch, and now also writes the
subtask counter — the cache changes on the second run. -/
theorem scan_reconcile_not_idempotent_counterexample :
    scan_reconcile ⟨[]⟩ ["AB-3".data, "AB-3".data, "AB-3-2".data] "AB".data true
      = .ok (⟨[("AB".data, ⟨3, []⟩)]⟩, [])
    ∧ scan_reconcile ⟨[("AB".data, ⟨3, []⟩)]⟩
        ["AB-3".data, "AB-3".data, "AB-3-2".data] "AB".data true
      = .ok (⟨[("AB".data, ⟨3, [("3".data, 2)]⟩)]⟩, [Conflict.dup "AB-3".data])
    ∧ (⟨[("AB".data, ⟨3, [("3".data, 2)]⟩)]⟩ : CacheData) ≠ ⟨[("AB".data, ⟨3, []⟩)]⟩ := by
  decide

/-- Claim C2 counterexample: with a single unlabeled task whose rename fails,
`process_project` propagates the failure (`.error`) instead of returning a
`ProcessingResult` carrying a per-item error — yet the committed counter
allocation (`last_root = 1`) survives in the cache. -/
theorem process_project_abort_counterexample :
    process_project "AB".data [⟨false, .mk "g1".data "T".data .nil⟩]
        (fun g => g == "g1".data) false ⟨[]⟩
      = (.error "g1".data, ⟨[("AB".data, ⟨1, []⟩)]⟩)
    ∧ (process_project "AB".data [⟨false, .mk "g1".data "T".data .nil⟩]
        (fun g => g == "g1".data) false ⟨[]⟩).1.toOption = none := by
  decide

/-! ### Committing freshly generated IDs -/

theorem update_cache_root_id (cd : CacheData) (code : Str) (m : Nat) :
    update_cache_for_id cd (code ++ '-' :: natRepr m) code
      = setProject (ensureProject cd code) code
          { getProjectD cd code with last_root := m } := by
  have hpat : code ++ ['-'] ≠ [] := by simp
  have hsplit : code ++ '-' :: natRepr m = (code ++ ['-']) ++ natRepr m := by simp
  have hp : (code ++ ['-']).isPrefixOf (code ++ '-' :: natRepr m) = true := by
    rw [hsplit]; exact isPrefixOf_append_self _ _
  have hnum : replaceFirst (code ++ ['-']) (code ++ '-' :: natRepr m) = natRepr m := by
    rw [replaceFirst_drops_pat _ _ hpat hp, hsplit, List.drop_left]
  simp only [update_cache_for_id, hnum]
  rw [if_neg (dash_not_mem_natRepr m)]
  rw [getProjectD_ensureProject, pyInt_natRepr]

theorem generate_next_subtask_eq (cd : CacheData) (parent code : Str)
    (hp : (code ++ ['-']).isPrefixOf parent = true) :
    generate_next_subtask_id cd parent code
      = (parent ++ '-' :: natRepr
            (lookupKeyD (getProjectD cd code).subtasks (parent.drop (code.length + 1)) + 1),
         ensureProject cd code) := by
  have hpat : code ++ ['-'] ≠ [] := by simp
  have hpn : replaceFirst (code ++ ['-']) parent = parent.drop (code.length + 1) := by
    rw [replaceFirst_drops_pat _ _ hpat hp]
    simp
  simp only [generate_next_subtask_id, hpn, getProjectD_ensureProject]

theorem update_cache_subtask_id (cd : CacheData) (code parent : Str) (k : Nat)
    (hp : (code ++ ['-']).isPrefixOf parent = true) :
    update_cache_for_id cd (parent ++ '-' :: natRepr k) code
      = setProject (ensureProject cd code) code
          { getProjectD cd code with
              subtasks := setKey (getProjectD cd code).subtasks
                (parent.drop (code.length + 1)) k } := by
  have hpat : code ++ ['-'] ≠ [] := by simp
  have hp2 : (code ++ ['-']).isPrefixOf (parent ++ '-' :: natRepr k) = true :=
    isPrefixOf_append_of _ _ _ hp
  have hlen : (code ++ ['-']).length ≤ parent.length := length_le_of_isPrefixOf _ _ hp
  have hnum : replaceFirst (code ++ ['-']) (parent ++ '-' :: natRepr k)
      = parent.drop (code.length + 1) ++ '-' :: natRepr k := by
    rw [replaceFirst_drops_pat _ _ hpat hp2, List.drop_append_of_le_length hlen]
    simp
  have hmem : '-' ∈ parent.drop (code.length + 1) ++ '-' :: natRepr k := by simp
  have hrs : rsplitDash (parent.drop (code.length + 1) ++ '-' :: natRepr k)
      = (parent.drop (code.length + 1), natRepr k) :=
    rsplitDash_append _ _ (dash_not_mem_natRepr k)
  simp only [update_cache_for_id, hnum]
  rw [if_pos hmem, hrs]
  simp only [getProjectD_ensureProject, pyInt_natRepr]

theorem ensureProject_ensureProject (cd : CacheData) (code : Str) :
    ensureProject (ensureProject cd code) code = ensureProject cd code :=
  ensureProject_of_isSome _ _ (by simp [lookupKey_ensureProject_self])

/-- Claim C4 (amended): `update_cache_for_id` assigns the counter the committed
ID's number unconditionally, so monotonicity holds for the allocator's own
allocate-then-commit sequences (the only ones the tree processor performs), not
for arbitrary well-formed IDs: committing a freshly generated root ID raises
`last_root` by exactly one and leaves `subtasks` unchanged, and committing a
freshly generated subtask ID raises the parent path's `subtasks` entry by
exactly one, leaving `last_root` and all other `subtasks` entries unchanged.
Committing an arbitrary well-formed ID (or conflict-path reconciliation) can
lower a counter, as the counterexample shows. -/
theorem commit_generated_monotone (cd : CacheData) (code parent : Str)
    (hp : (code ++ ['-']).isPrefixOf parent = true) :
    ((getProjectD (update_cache_for_id (generate_next_root_id cd code).2
          (generate_next_root_id cd code).1 code) code).last_root
        = (getProjectD cd code).last_root + 1
      ∧ (getProjectD (update_cache_for_id (generate_next_root_id cd code).2
          (generate_next_root_id cd code).1 code) code).subtasks
        = (getProjectD cd code).subtasks)
    ∧ ((getProjectD (update_cache_for_id (generate_next_subtask_id cd parent code).2
          (generate_next_subtask_id cd parent code).1 code) code).last_root
        = (getProjectD cd code).last_root
      ∧ lookupKeyD (getProjectD (update_cache_for_id (generate_next_subtask_id cd parent code).2
          (generate_next_subtask_id cd parent code).1 code) code).subtasks
            (replaceFirst (code ++ ['-']) parent)
        = lookupKeyD (getProjectD cd code).subtasks (replaceFirst (code ++ ['-']) parent) + 1
      ∧ ∀ q, ¬ q = replaceFirst (code ++ ['-']) parent →
          lookupKey (getProjectD (update_cache_for_id (generate_next_subtask_id cd parent code).2
            (generate_next_subtask_id cd parent code).1 code) code).subtasks q
          = lookupKey (getProjectD cd code).subtasks q) := by
  have hpat : code ++ ['-'] ≠ [] := by simp
  have hpn : replaceFirst (code ++ ['-']) parent = parent.drop (code.length + 1) := by
    rw [replaceFirst_drops_pat _ _ hpat hp]
    simp
  constructor
  · simp only [generate_next_root_id]
    rw [update_cache_root_id, ensureProject_ensureProject, getProjectD_ensureProject,
      getProjectD_setProject_self]
    exact ⟨rfl, rfl⟩
  · rw [generate_next_subtask_eq cd parent code hp]
    rw [update_cache_subtask_id _ _ _ _ hp, ensureProject_ensureProject,
      getProjectD_setProject_self, getProjectD_ensureProject, hpn]
    refine ⟨rfl, ?_, ?_⟩
    · simp [lookupKeyD, lookupKey_setKey_self]
    · intro q hq
      exact lookupKey_setKey_ne _ _ _ _ hq

/-- Witness for `commit_generated_monotone` at concrete input. -/
theorem commit_generated_monotone_witness :
    (getProjectD (update_cache_for_id (generate_next_root_id ⟨[]⟩ "AB".data).2
        (generate_next_root_id ⟨[]⟩ "AB".data).1 "AB".data) "AB".data).last_root
      = (getProjectD ⟨[]⟩ "AB".data).last_root + 1
    ∧ lookupKeyD (getProjectD (update_cache_for_id
          (generate_next_subtask_id ⟨[]⟩ "AB-1".data "AB".data).2
          (generate_next_subtask_id ⟨[]⟩ "AB-1".data "AB".data).1 "AB".data) "AB".data).subtasks
        (replaceFirst ("AB".data ++ ['-']) "AB-1".data)
      = lookupKeyD (getProjectD (⟨[]⟩ : CacheData) "AB".data).subtasks
          (replaceFirst ("AB".data ++ ['-']) "AB-1".data) + 1 :=
  ⟨(commit_generated_monotone ⟨[]⟩ "AB".data "AB-1".data (by decide)).1.1,
   (commit_generated_monotone ⟨[]⟩ "AB".data "AB-1".data (by decide)).2.2.1⟩

/-! ### Consecutive root allocations (claim C9) -/

theorem lookupKey_single_self {β : Type} (code : Str) (b : β) :
    lookupKey [(code, b)] code = some b := by
  simp [lookupKey]

theorem getProjectD_single (code : Str) (pc : ProjectCache) :
    getProjectD ⟨[(code, pc)]⟩ code = pc := by
  simp [getProjectD, lookupKey_single_self]

theorem ensureProject_single (code : Str) (pc : ProjectCache) :
    ensureProject ⟨[(code, pc)]⟩ code = ⟨[(code, pc)]⟩ :=
  ensureProject_of_isSome _ _ (by simp [lookupKey_single_self])

theorem setProject_single (code : Str) (pc pc' : ProjectCache) :
    setProject ⟨[(code, pc)]⟩ code pc' = ⟨[(code, pc')]⟩ := by
  simp [setProject, setKey]

theorem ensureProject_empty (code : Str) :
    ensureProject ⟨[]⟩ code = ⟨[(code, ⟨0, []⟩)]⟩ := by
  simp [ensureProject, lookupKey, setProject, setKey]

theorem alloc_step (code : Str) (cd : CacheData) (r : Nat)
    (h : ensureProject cd code = ⟨[(code, ⟨r, []⟩)]⟩) :
    (generate_next_root_id cd code).1 = code ++ '-' :: natRepr (r + 1)
    ∧ update_cache_for_id (generate_next_root_id cd code).2
        (generate_next_root_id cd code).1 code = ⟨[(code, ⟨r + 1, []⟩)]⟩ := by
  have hgp : getProjectD (ensureProject cd code) code = ⟨r, []⟩ := by
    rw [h, getProjectD_single]
  constructor
  · simp only [generate_next_root_id, hgp]
  · simp only [generate_next_root_id, hgp]
    rw [h, update_cache_root_id, ensureProject_single, getProjectD_single,
      setProject_single]

theorem allocN_empty_spec (code : Str) : ∀ n : Nat,
    allocN code ⟨[]⟩ n
      = ((List.range n).map (fun i => code ++ '-' :: natRepr (i + 1)),
         if n = 0 then ⟨[]⟩ else ⟨[(code, ⟨n, []⟩)]⟩) := by
  intro n
  induction n with
  | zero => simp [allocN]
  | succ n ih =>
    have hstep :
        ensureProject (if n = 0 then (⟨[]⟩ : CacheData) else ⟨[(code, ⟨n, []⟩)]⟩) code
          = ⟨[(code, ⟨n, []⟩)]⟩ := by
      by_cases h : n = 0
      · subst h
        simp only [if_pos rfl]
        exact ensureProject_empty code
      · simp only [if_neg h]
        exact ensureProject_single code ⟨n, []⟩
    have hs := alloc_step code (if n = 0 then ⟨[]⟩ else ⟨[(code, ⟨n, []⟩)]⟩) n hstep
    rw [allocN, ih]
    rw [List.range_succ, List.map_append]
    refine Prod.ext ?_ ?_
    · simp only []
      rw [hs.1]
      simp
    · simp only []
      rw [hs.2]
      simp

/-- Claim C9: starting from an empty cache, `N` consecutive root allocations,
each committed immediately (`generate_next_root_id` then `update_cache_for_id`),
produce exactly the IDs `CODE-1 .. CODE-N` in order (no gaps, no repeats) and
leave `last_root = N`. -/
theorem alloc_commit_sequence (code : Str) (n : Nat) :
    (allocN code ⟨[]⟩ n).1 = (List.range n).map (fun i => code ++ '-' :: natRepr (i + 1))
    ∧ (getProjectD (allocN code ⟨[]⟩ n).2 code).last_root = n := by
  have h := allocN_empty_spec code n
  rw [h]
  refine ⟨rfl, ?_⟩
  by_cases hn : n = 0
  · subst hn
    simp [getProjectD, lookupKey]
  · simp only [if_neg hn, getProjectD_single]

/-- Claim C2 (amended): a rename failure during the apply phase is not recorded
per item — `apply_update` re-raises and `asyncio.gather` propagates, so
`process_project` aborts with the error and returns no result; any result that
is returned has an empty `errors` list (nothing ever calls `add_error`) and no
skips, and carries exactly the collected updates.  The committed counter
allocations are indeed never rolled back: the resulting cache is the
collect-phase cache whatever the rename outcomes are. -/
theorem process_project_error_propagation (code : Str) (tasks : List ProjTask)
    (renameFails : Str → Bool) (dry_run : Bool) (cd : CacheData) :
    (process_project code tasks renameFails dry_run cd).2 = (collectUpdates code tasks cd).2
    ∧ ∀ r : ProcessingResult,
        (process_project code tasks renameFails dry_run cd).1 = .ok r →
          r.errors = [] ∧ r.skipped = 0 ∧ r.updates = (collectUpdates code tasks cd).1 := by
  constructor
  · simp only [process_project]
    split
    · split <;> rfl
    · rfl
  · intro r hr
    simp only [process_project] at hr
    split at hr
    · split at hr
      · exact absurd hr (by simp)
      · simp only [] at hr
        injection hr with h
        subst h
        exact ⟨rfl, rfl, rfl⟩
    · simp only [] at hr
      injection hr with h
      subst h
      exact ⟨rfl, rfl, rfl⟩

/-- Witness for `process_project_error_propagation` at concrete input. -/
theorem process_project_error_propagation_witness :
    (⟨"AB".data, [⟨"g1".data, "T".data, "AB-1 T".data, "AB-1".data⟩], 0, []⟩
        : ProcessingResult).errors = [] :=
  (((process_project_error_propagation "AB".data [⟨false, .mk "g1".data "T".data .nil⟩]
      (fun _ => false) false ⟨[]⟩).2
    ⟨"AB".data, [⟨"g1".data, "T".data, "AB-1 T".data, "AB-1".data⟩], 0, []⟩) (by decide)).1

/-! ### Reconciliation cache behaviour (claims C3 and C10) -/

theorem subtaskAdvanceOne_last_root (code : Str) (cd : CacheData) (tid : Str) :
    (getProjectD (subtaskAdvanceOne code cd tid) code).last_root
      = (getProjectD cd code).last_root := by
  unfold subtaskAdvanceOne
  split
  · dsimp only
    split
    · rw [getProjectD_setProject_self]
    · rfl
  · rfl

theorem subtaskAdvance_last_root (code : Str) (ids : List Str) : ∀ cd : CacheData,
    (getProjectD (subtaskAdvance code cd ids) code).last_root
      = (getProjectD cd code).last_root := by
  induction ids with
  | nil => intro cd; rfl
  | cons t ts ih =>
    intro cd
    simp only [subtaskAdvance, List.foldl_cons] at *
    rw [ih, subtaskAdvanceOne_last_root]

theorem scanTailUpdate_last_root (cd : CacheData) (ids : List Str) (code : Str) :
    (getProjectD (scanTailUpdate cd ids code) code).last_root
      = max (getProjectD cd code).last_root (find_max_id ids code) := by
  simp only [scanTailUpdate]
  by_cases hm : find_max_id ids code > 0
  · rw [if_pos hm]
    by_cases hgt : find_max_id ids code > (getProjectD (ensureProject cd code) code).last_root
    · rw [if_pos hgt, getProjectD_setProject_self]
      rw [getProjectD_ensureProject] at hgt
      simp only [getProjectD_ensureProject]
      omega
    · rw [if_neg hgt, getProjectD_ensureProject]
      rw [getProjectD_ensureProject] at hgt
      omega
  · rw [if_neg hm, getProjectD_ensureProject]
    omega

theorem scanConflictBranch_last_root (cd : CacheData) (ids : List Str) (code : Str) :
    (getProjectD (scanConflictBranch cd ids code) code).last_root
      = find_max_id ids code := by
  simp only [scanConflictBranch]
  rw [subtaskAdvance_last_root, getProjectD_setProject_self]

theorem scan_apply_last_root (cd : CacheData) (ids : List Str) (code : Str) (b : Bool) :
    (getProjectD (scan_apply cd ids code b) code).last_root
      = if b then find_max_id ids code
        else max (getProjectD cd code).last_root (find_max_id ids code) := by
  cases b with
  | false => simp [scan_apply, scanTailUpdate_last_root]
  | true =>
    simp only [scan_apply, if_true]
    rw [scanTailUpdate_last_root, scanConflictBranch_last_root]
    simp

/-- Claim C3 (amended): with `ignore_conflicts = true` reconciliation never
raises; when no conflicts exist, `last_root` becomes the maximum of its old
value and the observed maximum root (advanced only if the observed maximum
exceeds it, never lowered); but when conflicts exist, the conflict branch
assigns `last_root` the observed maximum root unconditionally — which can lower
it, as the counterexample shows. -/
theorem scan_reconcile_ignore_last_root (cd : CacheData) (ids : List Str) (code : Str) :
    scan_reconcile cd ids code true
      = .ok (scan_apply cd ids code (!(detect_conflicts cd ids code).isEmpty),
             detect_conflicts cd ids code)
    ∧ (getProjectD (scan_apply cd ids code (!(detect_conflicts cd ids code).isEmpty))
          code).last_root
      = (if detect_conflicts cd ids code = [] then
           max (getProjectD cd code).last_root (find_max_id ids code)
         else find_max_id ids code) := by
  constructor
  · simp [scan_reconcile]
  · rw [scan_apply_last_root]
    cases hc : detect_conflicts cd ids code with
    | nil => simp
    | cons a t => simp

/-! ### The parse/format round trip (claim C8) -/

theorem numChunk_cons_digit (c : Char) (rest : Str) (hc : isDigit09 c = true) :
    numChunk (c :: rest) = (c :: (numChunk rest).1, (numChunk rest).2) := by
  rw [numChunk.eq_def]
  dsimp only
  rw [hc]
  simp

theorem numChunk_cons_dash (c2 : Char) (rest2 : Str) (hc2 : isDigit09 c2 = true) :
    numChunk ('-' :: c2 :: rest2)
      = ('-' :: c2 :: (numChunk rest2).1, (numChunk rest2).2) := by
  rw [numChunk.eq_def]
  dsimp only
  have hdash : isDigit09 '-' = false := by decide
  rw [hdash, hc2]
  simp

theorem numChunk_digits_append (d : Str) (hd : ∀ c ∈ d, isDigit09 c = true) (r : Str) :
    numChunk (d ++ r) = (d ++ (numChunk r).1, (numChunk r).2) := by
  induction d with
  | nil => simp
  | cons c t ih =>
    have hc : isDigit09 c = true := hd c (by simp)
    rw [List.cons_append, numChunk_cons_digit c _ hc,
      ih (fun x hx => hd x (by simp [hx]))]
    simp

theorem numChunk_dashConcat : ∀ l : List Str,
    (∀ x ∈ l, x ≠ [] ∧ ∀ c ∈ x, isDigit09 c = true) →
    numChunk (dashConcat l) = (dashConcat l, []) := by
  intro l
  induction l with
  | nil => intro _; rfl
  | cons y xs ih =>
    intro h
    obtain ⟨hyne, hyd⟩ := h y (by simp)
    obtain ⟨c2, y', rfl⟩ : ∃ c2 y', y = c2 :: y' := by
      cases y with
      | nil => exact absurd rfl hyne
      | cons a b => exact ⟨a, b, rfl⟩
    have hc2 : isDigit09 c2 = true := hyd c2 (by simp)
    have ihx := ih (fun x hx => h x (by simp [hx]))
    simp only [dashConcat, List.cons_append]
    rw [numChunk_cons_dash c2 _ hc2,
      numChunk_digits_append y' (fun c hc => hyd c (by simp [hc]))]
    rw [ihx]

/-- Claim C8: parsing is a left inverse of formatting.  For every valid project
code (2-5 uppercase letters) and every non-empty sequence of non-negative
integers, `extract_id` on the formatted string `CODE-n₁-…-nₖ`, with that code
expected, succeeds and returns the formatted string itself. -/
theorem parse_format_roundtrip (code : Str) (s : List Nat) (h2 : 2 ≤ code.length)
    (h5 : code.length ≤ 5) (hU : ∀ c ∈ code, isUpperAZ c = true) (hs : s ≠ []) :
    extract_id (formatId code s) code = some (formatId code s) := by
  obtain ⟨n, rest, rfl⟩ : ∃ n rest, s = n :: rest := by
    cases s with
    | nil => exact absurd rfl hs
    | cons a b => exact ⟨a, b, rfl⟩
  have hdigits : ∀ x ∈ (n :: rest).map natRepr, x ≠ [] ∧ ∀ c ∈ x, isDigit09 c = true := by
    intro x hx
    obtain ⟨m, _, rfl⟩ := List.mem_map.mp hx
    exact ⟨natRepr_ne_nil m, natRepr_digits m⟩
  have hjoin : numChunk (joinDash ((n :: rest).map natRepr))
      = (joinDash ((n :: rest).map natRepr), []) := by
    simp only [List.map_cons, joinDash]
    rw [numChunk_digits_append (natRepr n) (natRepr_digits n)]
    rw [numChunk_dashConcat (rest.map natRepr) (fun x hx => hdigits x (by simp [hx]))]
  have hupper_dash : isUpperAZ '-' = false := by decide
  have htake : (formatId code (n :: rest)).takeWhile isUpperAZ = code := by
    unfold formatId
    rw [takeWhile_append_all _ _ hU, (takeWhile_stop _ _ hupper_dash).1]
    simp
  have hdropw : (formatId code (n :: rest)).dropWhile isUpperAZ
      = '-' :: joinDash ((n :: rest).map natRepr) := by
    unfold formatId
    rw [dropWhile_append_all _ _ hU, (takeWhile_stop _ _ hupper_dash).2]
  obtain ⟨d, ds, hnd⟩ : ∃ d ds, natRepr n = d :: ds := by
    cases hh : natRepr n with
    | nil => exact absurd hh (natRepr_ne_nil n)
    | cons a b => exact ⟨a, b, rfl⟩
  have hjoin_cons : joinDash ((n :: rest).map natRepr)
      = d :: (ds ++ dashConcat (rest.map natRepr)) := by
    simp [joinDash, hnd]
  have hd_digit : isDigit09 d = true := natRepr_digits n d (by rw [hnd]; simp)
  have hmatch : reMatchID (formatId code (n :: rest))
      = some (code, joinDash ((n :: rest).map natRepr)) := by
    rw [hjoin_cons] at hjoin
    simp only [reMatchID, htake, hdropw]
    rw [if_pos ⟨h2, h5⟩]
    simp only [hjoin_cons, hd_digit, if_true, hjoin]
  unfold extract_id
  rw [hmatch]
  simp [formatId]

/-- Witness for `parse_format_roundtrip` at concrete input. -/
theorem parse_format_roundtrip_witness :
    extract_id (formatId "AB".data [1, 2]) "AB".data = some (formatId "AB".data [1, 2]) :=
  parse_format_roundtrip "AB".data [1, 2] (by decide) (by decide) (by decide) (by decide)

/-! ### Depth truncation of the traversal (claim C1) -/

/-- Claim C1 (code bug): `get_task_subtasks` (`asana_client.py` lines 164-170)
omits `num_subtasks` from its `opt_fields`, unlike `get_project_tasks`, so
every fetched subtask dict reads `task.get('num_subtasks', 0) = 0` and
`process_task_hierarchy` never recurses below the direct subtasks of a
project-level task.  Evaluating the code at the failing input — an unlabeled
root whose unlabeled child has an unlabeled grandchild — the root and the child
receive IDs (`AB-1`, `AB-1-1`) but the grandchild is never visited and receives
none, contradicting the claim (and the spec, whose traversal recurses by the
same rules at every depth). -/
theorem subtask_fetch_depth_truncation :
    (process_task_hierarchy "AB".data
        (.mk "g1".data "Root task".data
          (.cons (.mk "g2".data "Child task".data
            (.cons (.mk "g3".data "Grandchild task".data .nil) .nil)) .nil))
        1 none ⟨[]⟩).1.map TaskUpdate.task_id
      = ["g1".data, "g2".data]
    ∧ "g3".data ∉ (process_task_hierarchy "AB".data
        (.mk "g1".data "Root task".data
          (.cons (.mk "g2".data "Child task".data
            (.cons (.mk "g3".data "Grandchild task".data .nil) .nil)) .nil))
        1 none ⟨[]⟩).1.map TaskUpdate.task_id := by
  decide

/-! ### Idempotence of reconciliation over an existing entry (claim C10) -/

theorem find_max_foldl_ge (code : Str) (l : List Str) : ∀ acc : Nat,
    acc ≤ List.foldl (fun m tid =>
      match rootMatch code tid with
      | some n => if n > m then n else m
      | none => m) acc l := by
  induction l with
  | nil => intro acc; exact le_refl acc
  | cons t ts ih =>
    intro acc
    rw [List.foldl_cons]
    refine le_trans ?_ (ih _)
    cases hr : rootMatch code t with
    | none => simp
    | some n =>
      simp only []
      by_cases h : n > acc
      · rw [if_pos h]; omega
      · rw [if_neg h]

theorem rootMatch_le_find_max (code : Str) (l : List Str) (tid : Str) (n : Nat)
    (hr : rootMatch code tid = some n) : ∀ acc, tid ∈ l →
    n ≤ List.foldl (fun m tid =>
      match rootMatch code tid with
      | some n => if n > m then n else m
      | none => m) acc l := by
  induction l with
  | nil => intro acc hm; simp at hm
  | cons t ts ih =>
    intro acc hmem
    rw [List.foldl_cons]
    rcases List.mem_cons.mp hmem with h | h
    · subst h
      refine le_trans ?_ (find_max_foldl_ge code ts _)
      rw [hr]
      simp only []
      by_cases hgt : n > acc
      · rw [if_pos hgt]
      · rw [if_neg hgt]; omega
    · exact ih _ h

theorem rootMatch_le_find_max_id (code : Str) (l : List Str) (tid : Str) (n : Nat)
    (hmem : tid ∈ l) (hr : rootMatch code tid = some n) : n ≤ find_max_id l code := by
  unfold find_max_id
  exact rootMatch_le_find_max code l tid n hr 0 hmem

theorem driftScan_empty (lr : Nat) (code : Str) (ids : List Str)
    (h : ∀ tid ∈ ids, ∀ n, rootMatch code tid = some n → n ≤ lr) :
    driftScan lr code ids = [] := by
  induction ids with
  | nil => rfl
  | cons t ts ih =>
    simp only [driftScan, List.filterMap_cons] at *
    cases hr : rootMatch code t with
    | none => exact ih (fun tid hm => h tid (by simp [hm]))
    | some n =>
      have hle := h t (by simp) n hr
      simp only []
      rw [if_neg (by omega)]
      exact ih (fun tid hm => h tid (by simp [hm]))

theorem driftScan_ge_find_max (code : Str) (ids : List Str) (lr : Nat)
    (h : find_max_id ids code ≤ lr) : driftScan lr code ids = [] :=
  driftScan_empty lr code ids
    (fun tid hm n hr => le_trans (rootMatch_le_find_max_id code ids tid n hm hr) h)

theorem detect_conflicts_entry (cd : CacheData) (ids : List Str) (code : Str)
    (h : (lookupKey cd.projects code).isSome = true) :
    detect_conflicts cd ids code
      = dupScan [] ids ++ driftScan (getProjectD cd code).last_root code ids := by
  unfold detect_conflicts
  rw [lookup_eq_getProjectD cd code h]

theorem subtaskAdvanceOne_subtasks_ge (code : Str) (cd : CacheData) (tid : Str) (q : Str) :
    lookupKeyD (getProjectD cd code).subtasks q
      ≤ lookupKeyD (getProjectD (subtaskAdvanceOne code cd tid) code).subtasks q := by
  unfold subtaskAdvanceOne
  cases ht : subtaskTarget code tid with
  | none => exact le_refl _
  | some pr =>
    dsimp only
    by_cases hgt : pr.2 > lookupKeyD (getProjectD cd code).subtasks pr.1
    · rw [if_pos hgt, getProjectD_setProject_self]
      dsimp only
      by_cases hq : q = pr.1
      · subst hq
        unfold lookupKeyD
        rw [lookupKey_setKey_self]
        unfold lookupKeyD at hgt
        simp only [Option.getD_some]
        omega
      · unfold lookupKeyD
        rw [lookupKey_setKey_ne _ _ _ _ hq]
    · rw [if_neg hgt]

theorem subtaskAdvanceOne_dom (code : Str) (cd : CacheData) (tid : Str) (pr : Str × Nat)
    (ht : subtaskTarget code tid = some pr) :
    pr.2 ≤ lookupKeyD (getProjectD (subtaskAdvanceOne code cd tid) code).subtasks pr.1 := by
  unfold subtaskAdvanceOne
  rw [ht]
  dsimp only
  by_cases hgt : pr.2 > lookupKeyD (getProjectD cd code).subtasks pr.1
  · rw [if_pos hgt, getProjectD_setProject_self]
    dsimp only
    unfold lookupKeyD
    rw [lookupKey_setKey_self]
    simp
  · rw [if_neg hgt]
    omega

theorem subtaskAdvance_subtasks_ge (code : Str) (ids : List Str) (q : Str) :
    ∀ cd : CacheData, lookupKeyD (getProjectD cd code).subtasks q
      ≤ lookupKeyD (getProjectD (subtaskAdvance code cd ids) code).subtasks q := by
  induction ids with
  | nil => intro cd; exact le_refl _
  | cons t ts ih =>
    intro cd
    simp only [subtaskAdvance, List.foldl_cons] at *
    exact le_trans (subtaskAdvanceOne_subtasks_ge code cd t q) (ih _)

theorem subtaskAdvance_dom (code : Str) (ids : List Str) :
    ∀ (cd : CacheData) (tid : Str), tid ∈ ids → ∀ pr, subtaskTarget code tid = some pr →
    pr.2 ≤ lookupKeyD (getProjectD (subtaskAdvance code cd ids) code).subtasks pr.1 := by
  induction ids with
  | nil => intro cd tid hm; simp at hm
  | cons t ts ih =>
    intro cd tid hmem pr ht
    simp only [subtaskAdvance, List.foldl_cons] at *
    rcases List.mem_cons.mp hmem with h | h
    · subst h
      exact le_trans (subtaskAdvanceOne_dom code cd tid pr ht)
        (subtaskAdvance_subtasks_ge code ts pr.1 _)
    · exact ih _ tid h pr ht

theorem subtaskAdvanceOne_id (code : Str) (cd : CacheData) (tid : Str)
    (h : ∀ pr, subtaskTarget code tid = some pr →
        pr.2 ≤ lookupKeyD (getProjectD cd code).subtasks pr.1) :
    subtaskAdvanceOne code cd tid = cd := by
  unfold subtaskAdvanceOne
  cases ht : subtaskTarget code tid with
  | none => rfl
  | some pr =>
    dsimp only
    rw [if_neg]
    have := h pr ht
    omega

theorem subtaskAdvance_id (code : Str) (ids : List Str) :
    ∀ cd : CacheData, (∀ tid ∈ ids, ∀ pr, subtaskTarget code tid = some pr →
        pr.2 ≤ lookupKeyD (getProjectD cd code).subtasks pr.1) →
    subtaskAdvance code cd ids = cd := by
  induction ids with
  | nil => intro cd _; rfl
  | cons t ts ih =>
    intro cd h
    have h1 : subtaskAdvanceOne code cd t = cd :=
      subtaskAdvanceOne_id code cd t (h t (by simp))
    simp only [subtaskAdvance, List.foldl_cons, h1] at *
    exact ih cd (fun tid hm => h tid (by simp [hm]))

theorem subtaskAdvanceOne_isSome (code : Str) (cd : CacheData) (tid : Str)
    (h : (lookupKey cd.projects code).isSome = true) :
    (lookupKey (subtaskAdvanceOne code cd tid).projects code).isSome = true := by
  unfold subtaskAdvanceOne
  cases ht : subtaskTarget code tid with
  | none => exact h
  | some pr =>
    dsimp only
    by_cases hgt : pr.2 > lookupKeyD (getProjectD cd code).subtasks pr.1
    · rw [if_pos hgt]
      simp [setProject, lookupKey_setKey_self]
    · rw [if_neg hgt]
      exact h

theorem subtaskAdvance_isSome (code : Str) (ids : List Str) : ∀ cd : CacheData,
    (lookupKey cd.projects code).isSome = true →
    (lookupKey (subtaskAdvance code cd ids).projects code).isSome = true := by
  induction ids with
  | nil => intro cd h; exact h
  | cons t ts ih =>
    intro cd h
    simp only [subtaskAdvance, List.foldl_cons] at *
    exact ih _ (subtaskAdvanceOne_isSome code cd t h)

theorem scanTailUpdate_isSome (cd : CacheData) (ids : List Str) (code : Str) :
    (lookupKey (scanTailUpdate cd ids code).projects code).isSome = true := by
  simp only [scanTailUpdate]
  by_cases hm : find_max_id ids code > 0
  · rw [if_pos hm]
    by_cases hgt : find_max_id ids code > (getProjectD (ensureProject cd code) code).last_root
    · rw [if_pos hgt]
      simp [setProject, lookupKey_setKey_self]
    · rw [if_neg hgt]
      simp [lookupKey_ensureProject_self]
  · rw [if_neg hm]
    simp [lookupKey_ensureProject_self]

theorem scan_apply_isSome (cd : CacheData) (ids : List Str) (code : Str) (b : Bool) :
    (lookupKey (scan_apply cd ids code b).projects code).isSome = true := by
  simp only [scan_apply]
  exact scanTailUpdate_isSome _ _ _

theorem scanConflictBranch_isSome (cd : CacheData) (ids : List Str) (code : Str) :
    (lookupKey (scanConflictBranch cd ids code).projects code).isSome = true := by
  simp only [scanConflictBranch]
  apply subtaskAdvance_isSome
  simp [setProject, lookupKey_setKey_self]

theorem scanTailUpdate_id (cd : CacheData) (ids : List Str) (code : Str)
    (hsome : (lookupKey cd.projects code).isSome = true)
    (h : find_max_id ids code ≤ (getProjectD cd code).last_root) :
    scanTailUpdate cd ids code = cd := by
  simp only [scanTailUpdate]
  rw [ensureProject_of_isSome cd code hsome]
  by_cases hm : find_max_id ids code > 0
  · rw [if_pos hm, if_neg (by omega)]
  · rw [if_neg hm]

theorem scan_apply_false (cd : CacheData) (ids : List Str) (code : Str) :
    scan_apply cd ids code false = scanTailUpdate cd ids code := rfl

theorem scan_apply_true (cd : CacheData) (ids : List Str) (code : Str) :
    scan_apply cd ids code true
      = scanTailUpdate (scanConflictBranch cd ids code) ids code := rfl

theorem scanConflictBranch_id (cd : CacheData) (ids : List Str) (code : Str)
    (hsome : (lookupKey cd.projects code).isSome = true)
    (hlr : (getProjectD cd code).last_root = find_max_id ids code)
    (hdom : ∀ tid ∈ ids, ∀ pr, subtaskTarget code tid = some pr →
        pr.2 ≤ lookupKeyD (getProjectD cd code).subtasks pr.1) :
    scanConflictBranch cd ids code = cd := by
  simp only [scanConflictBranch]
  rw [ensureProject_of_isSome cd code hsome]
  have hpc : { getProjectD cd code with last_root := find_max_id ids code }
      = getProjectD cd code := by
    rw [← hlr]
  have hsp : setProject cd code (getProjectD cd code) = cd := by
    unfold setProject
    rw [setKey_self_of_lookup cd.projects code _ (lookup_eq_getProjectD cd code hsome)]
  rw [hpc, hsp]
  exact subtaskAdvance_id code ids cd hdom

theorem scan_apply_idem (cd : CacheData) (ids : List Str) (code : Str)
    (hsome : (lookupKey cd.projects code).isSome = true) :
    scan_apply (scan_apply cd ids code (!(detect_conflicts cd ids code).isEmpty)) ids code
      (!(detect_conflicts (scan_apply cd ids code (!(detect_conflicts cd ids code).isEmpty))
          ids code).isEmpty)
      = scan_apply cd ids code (!(detect_conflicts cd ids code).isEmpty) := by
  have hdet := detect_conflicts_entry cd ids code hsome
  cases hc : detect_conflicts cd ids code with
  | nil =>
    rw [hc] at hdet
    have hdup : dupScan [] ids = [] := (List.append_eq_nil.mp hdet.symm).1
    simp only [hc, List.isEmpty_nil, Bool.not_true]
    rw [scan_apply_false]
    have hsome1 : (lookupKey (scanTailUpdate cd ids code).projects code).isSome = true :=
      scanTailUpdate_isSome _ _ _
    have hlr1 : (getProjectD (scanTailUpdate cd ids code) code).last_root
        = max (getProjectD cd code).last_root (find_max_id ids code) :=
      scanTailUpdate_last_root cd ids code
    have hdet1 : detect_conflicts (scanTailUpdate cd ids code) ids code = [] := by
      rw [detect_conflicts_entry _ ids code hsome1, hdup,
        driftScan_ge_find_max code ids _ (by rw [hlr1]; omega)]
      rfl
    rw [hdet1]
    simp only [List.isEmpty_nil, Bool.not_true]
    rw [scan_apply_false]
    exact scanTailUpdate_id _ ids code hsome1 (by rw [hlr1]; omega)
  | cons a t =>
    simp only [hc, List.isEmpty_cons, Bool.not_false]
    rw [scan_apply_true]
    have hsomeb : (lookupKey (scanConflictBranch cd ids code).projects code).isSome = true :=
      scanConflictBranch_isSome _ _ _
    have hlrb : (getProjectD (scanConflictBranch cd ids code) code).last_root
        = find_max_id ids code :=
      scanConflictBranch_last_root cd ids code
    have htail : scanTailUpdate (scanConflictBranch cd ids code) ids code
        = scanConflictBranch cd ids code :=
      scanTailUpdate_id _ ids code hsomeb (by omega)
    rw [htail]
    have hdomb : ∀ tid ∈ ids, ∀ pr, subtaskTarget code tid = some pr →
        pr.2 ≤ lookupKeyD (getProjectD (scanConflictBranch cd ids code) code).subtasks pr.1 := by
      intro tid hm pr ht
      simp only [scanConflictBranch]
      exact subtaskAdvance_dom code ids _ tid hm pr ht
    have hdet1 : detect_conflicts (scanConflictBranch cd ids code) ids code
        = dupScan [] ids := by
      rw [detect_conflicts_entry _ ids code hsomeb,
        driftScan_ge_find_max code ids _ (by omega)]
      simp
    cases hdup : dupScan [] ids with
    | nil =>
      rw [hdet1, hdup]
      simp only [List.isEmpty_nil, Bool.not_true]
      rw [scan_apply_false]
      exact scanTailUpdate_id _ ids code hsomeb (by omega)
    | cons b u =>
      rw [hdet1, hdup]
      simp only [List.isEmpty_cons, Bool.not_false]
      rw [scan_apply_true]
      have hbranch : scanConflictBranch (scanConflictBranch cd ids code) ids code
          = scanConflictBranch cd ids code :=
        scanConflictBranch_id _ ids code hsomeb hlrb hdomb
      rw [hbranch]
      exact scanTailUpdate_id _ ids code hsomeb (by omega)

theorem scan_reconcile_true_eq (cd : CacheData) (ids : List Str) (code : Str) :
    scan_reconcile cd ids code true
      = .ok (scan_apply cd ids code (!(detect_conflicts cd ids code).isEmpty),
             detect_conflicts cd ids code) := by
  simp [scan_reconcile]

/-- Claim C10 (amended): reconciliation with `ignore_conflicts = true` is
idempotent whenever the project code already has a cache entry before the first
run: the second run returns the first run's cache unchanged.  (Without a
pre-existing entry the first run reports no conflicts and skips the subtask
counters, while the second run can take the conflict branch and write them —
the counterexample.) -/
theorem scan_reconcile_idempotent_of_entry (cd : CacheData) (ids : List Str) (code : Str)
    (hsome : (lookupKey cd.projects code).isSome = true) (cd1 : CacheData)
    (c1 : List Conflict) (h1 : scan_reconcile cd ids code true = .ok (cd1, c1)) :
    scan_reconcile cd1 ids code true = .ok (cd1, detect_conflicts cd1 ids code) := by
  rw [scan_reconcile_true_eq] at h1
  injection h1 with h
  rw [Prod.mk.injEq] at h
  obtain ⟨hX, _⟩ := h
  subst hX
  rw [scan_reconcile_true_eq]
  rw [scan_apply_idem cd ids code hsome]

/-- Witness for `scan_reconcile_idempotent_of_entry` at concrete input. -/
theorem scan_reconcile_idempotent_of_entry_witness :
    scan_reconcile ⟨[("AB".data, ⟨3, []⟩)]⟩ ["AB-3".data] "AB".data true
      = .ok (⟨[("AB".data, ⟨3, []⟩)]⟩,
             detect_conflicts ⟨[("AB".data, ⟨3, []⟩)]⟩ ["AB-3".data] "AB".data) :=
  scan_reconcile_idempotent_of_entry ⟨[("AB".data, ⟨3, []⟩)]⟩ ["AB-3".data] "AB".data
    (by decide) ⟨[("AB".data, ⟨3, []⟩)]⟩ [] (by decide)
